import Mathlib

/-!
Verification of the RAAM 2025 tracker repository.

Part I embeds the Route Model: the distance-indexed course representation
(construction from raw samples, point-at-distance, gradient-at-distance and
elevation-budget queries).  The route-model code itself is not among the
repository files available here, so its operations are modelled from the
specification's construction and query algorithms; each such definition is
marked `Modelled from the spec:`.  Machine reals are embedded as `ℚ`, and
fallible operations return `Except QueryError`, with division modelled as a
fallible primitive so that "raises a division-by-zero error" is expressible.

Part II embeds the scraping/ranking logic of `app.py` and `notifier.py`:
`degrees_to_cardinal`, `parse_trackleaders_data`, and the parse/sort/rank
pipeline of `fetch_and_process_data`.  Python dictionaries are embedded as
association lists, Python `str.lower` as a character map, Python `int()`
truncation as truncation toward zero, and Python `%` on integers (with a
positive modulus) as `Int.emod`.
-/

namespace Raam

/-- One sample of the course, as stored in the route model. -/
structure RoutePoint where
  cumulativeDistance : ℚ
  lat : ℚ
  lon : ℚ
  elevation : ℚ
  deriving DecidableEq, Repr

/-- Errors a route query can surface: the explicit "route unavailable"
result, and a division-by-zero error (modelling a runtime exception). -/
inductive QueryError where
  | routeUnavailable
  | divByZero
  deriving DecidableEq, Repr

/-- Division as the fallible runtime primitive: dividing by zero is an
error, not a value. -/
def pyDiv (a b : ℚ) : Except QueryError ℚ :=
  if b = 0 then .error .divByZero else .ok (a / b)

/-- Modelled from the spec: the interpolation fraction
`(targetDistance - p1.dist) / (p2.dist - p1.dist)` with the guard "if
`p2.dist == p1.dist`, treat ratio as 0"; the division itself stays
fallible. -/
def interpFrac (p1 p2 : RoutePoint) (t : ℚ) : Except QueryError ℚ :=
  if p2.cumulativeDistance = p1.cumulativeDistance then .ok 0
  else pyDiv (t - p1.cumulativeDistance) (p2.cumulativeDistance - p1.cumulativeDistance)

/-- Modelled from the spec: linear interpolation of `lat` and `lon`
independently between the bracketing pair. -/
def interpCoord (p1 p2 : RoutePoint) (t : ℚ) : Except QueryError (ℚ × ℚ) :=
  (interpFrac p1 p2 t).map fun r =>
    (p1.lat + r * (p2.lat - p1.lat), p1.lon + r * (p2.lon - p1.lon))

/-- Modelled from the spec: linear scan for the bracketing pair
`(p1, p2)` with `targetDistance <= p2.cumulativeDistance`; if the target
exceeds all points, return the last point's coordinate unmodified. -/
def scanCoord : List RoutePoint → ℚ → Except QueryError (ℚ × ℚ)
  | [], _ => .error .routeUnavailable
  | [p], _ => .ok (p.lat, p.lon)
  | p1 :: p2 :: rest, t =>
    if t ≤ p2.cumulativeDistance then interpCoord p1 p2 t
    else scanCoord (p2 :: rest) t

/-- The `totalDistance` of a stored point list: the last point's
cumulative distance (0 for an empty list). -/
def totalOf (pts : List RoutePoint) : ℚ :=
  match pts.getLast? with
  | some p => p.cumulativeDistance
  | none => 0

/-- Modelled from the spec: `coordinateAt` — reject models with fewer
than 2 points, clamp the target below by 0, then scan. -/
def coordinateAt (pts : List RoutePoint) (t : ℚ) : Except QueryError (ℚ × ℚ) :=
  if pts.length < 2 then .error .routeUnavailable
  else scanCoord pts (max t 0)

/-- Unit conversion used by the gradient query (route distances are in
miles, elevations in meters). -/
def metersPerMile : ℚ := 1609344 / 1000

/-- Modelled from the spec: the gradient over one bracketing segment:
`(p2.elevation - p1.elevation) / horizontalDistanceMeters * 100`, with the
guard reporting `0` when the horizontal distance is zero. -/
def gradSeg (p1 p2 : RoutePoint) : Except QueryError ℚ :=
  if (p2.cumulativeDistance - p1.cumulativeDistance) * metersPerMile = 0 then .ok 0
  else
    (pyDiv (p2.elevation - p1.elevation)
      ((p2.cumulativeDistance - p1.cumulativeDistance) * metersPerMile)).map (· * 100)

/-- Modelled from the spec: linear scan for the bracketing pair of the
gradient query. -/
def scanGrad : List RoutePoint → ℚ → Except QueryError ℚ
  | p1 :: p2 :: rest, d =>
    if d ≤ p2.cumulativeDistance then gradSeg p1 p2
    else scanGrad (p2 :: rest) d
  | _, _ => .ok 0

/-- Modelled from the spec: `gradientAt` — reject models with fewer than
2 points, report `0%` when `distance >= totalDistance`, otherwise scan for
the bracketing pair. -/
def gradientAt (pts : List RoutePoint) (d : ℚ) : Except QueryError ℚ :=
  if pts.length < 2 then .error .routeUnavailable
  else if totalOf pts ≤ d then .ok 0
  else scanGrad pts (max d 0)

/-- The positive part of the elevation delta of one segment. -/
def posDelta (p1 p2 : RoutePoint) : ℚ :=
  max (p2.elevation - p1.elevation) 0

/-- Modelled from the spec: sum of positive elevation deltas between
consecutive points whose distance is `<= d`. -/
def climbedUpTo : List RoutePoint → ℚ → ℚ
  | p1 :: p2 :: rest, d =>
    (if p2.cumulativeDistance ≤ d then posDelta p1 p2 else 0) + climbedUpTo (p2 :: rest) d
  | _, _ => 0

/-- Modelled from the spec: `totalGain` — sum of all positive elevation
deltas between consecutive points over the whole route. -/
def totalGain : List RoutePoint → ℚ
  | p1 :: p2 :: rest => posDelta p1 p2 + totalGain (p2 :: rest)
  | _ => 0

/-- Result record of the elevation-budget query. -/
structure ElevStats where
  climbed : ℚ
  remaining : ℚ
  deriving DecidableEq, Repr

/-- Modelled from the spec: `elevationStats` — `climbed` plus
`remaining = totalGain - climbed`, unavailable below 2 points. -/
def elevationStats (pts : List RoutePoint) (d : ℚ) : Except QueryError ElevStats :=
  if pts.length < 2 then .error .routeUnavailable
  else .ok ⟨climbedUpTo pts d, totalGain pts - climbedUpTo pts d⟩

/-- Comparison of two stored points by cumulative distance. -/
def leDist (a b : RoutePoint) : Prop :=
  a.cumulativeDistance ≤ b.cumulativeDistance

/-- The relation between consecutive stored points of a derived route:
cumulative distances are non-decreasing, and a zero-length segment
(distance increment 0, i.e. great-circle distance 0 between the raw
samples) joins samples at the same coordinate. -/
def stepRel (a b : RoutePoint) : Prop :=
  a.cumulativeDistance ≤ b.cumulativeDistance ∧
  (b.cumulativeDistance ≤ a.cumulativeDistance → a.lat = b.lat ∧ a.lon = b.lon)

instance : DecidableRel stepRel := fun a b => by
  unfold stepRel; infer_instance

/-- Validity of a stored route per the spec's RoutePoint invariant: at
least two points, cumulative distance 0 at the head, and consecutive
points related by `stepRel`. -/
def ValidRoute (pts : List RoutePoint) : Prop :=
  2 ≤ pts.length ∧
  (∀ p, pts.head? = some p → p.cumulativeDistance = 0) ∧
  List.Chain' stepRel pts

/-! ### Part II: `app.py` and `notifier.py` -/

/-- Python `str.lower`, as a character map (the ASCII range is all these
claims compare against). -/
def pyLower (s : String) : String := ⟨s.data.map Char.toLower⟩

/-- Python `str.strip()`: drop whitespace from both ends. -/
def pyStrip (s : String) : String :=
  ⟨((s.data.dropWhile Char.isWhitespace).reverse.dropWhile Char.isWhitespace).reverse⟩

/-- Whether the first character list is a prefix of the second. -/
def listPre : List Char → List Char → Bool
  | [], _ => true
  | _ :: _, [] => false
  | a :: as, b :: bs => a == b && listPre as bs

/-- Whether the first character list occurs contiguously in the second. -/
def listSub (needle : List Char) : List Char → Bool
  | [] => listPre needle []
  | b :: bs => listPre needle (b :: bs) || listSub needle bs

/-- Python substring test `needle in hay`. -/
def containsSub (needle hay : String) : Bool := listSub needle.toList hay.toList

/-- Python `int()` truncation of a number: toward zero. -/
def pyTrunc (q : ℚ) : ℤ := if 0 ≤ q then ⌊q⌋ else ⌈q⌉

/-- The 16 compass direction strings of `degrees_to_cardinal`
(`notifier.py` line 16). -/
def compassDirs : List String :=
  ["N", "NNO", "NO", "ONO", "O", "OSO", "SO", "SSO",
   "S", "SSW", "SW", "WSW", "W", "WNW", "NW", "NNW"]

/-- Python list indexing `l[i]`: negative indices count from the end, and
out-of-range access is an error (`none`). -/
def pyIndex (l : List String) (i : ℤ) : Option String :=
  if 0 ≤ i then l.get? i.toNat
  else if 0 ≤ (l.length : ℤ) + i then l.get? ((l.length : ℤ) + i).toNat
  else none

/-- `degrees_to_cardinal` (`notifier.py` lines 13-18): `""` for `None`,
otherwise `dirs[int((d + 11.25)/22.5) % 16]`.  Python `%` with the
positive modulus 16 is `Int.emod`; `none` in the result would be an
index-out-of-range error. -/
def degrees_to_cardinal (d : Option ℚ) : Option String :=
  match d with
  | none => some ""
  | some x => pyIndex compassDirs (Int.emod (pyTrunc ((x + 11.25) / 22.5)) 16)

/-- One element of the raw TrackLeaders array consumed by
`parse_trackleaders_data`: a possibly-non-dict value carrying string and
numeric entries. -/
structure RawItem where
  isDict : Bool
  strFields : List (String × String)
  numFields : List (String × ℚ)
  deriving DecidableEq, Repr

/-- Python `item.get(key, default)` over the string entries. -/
def getStr (it : RawItem) (k : String) (dflt : String) : String :=
  match it.strFields.find? (fun p => p.1 == k) with
  | some p => p.2
  | none => dflt

/-- Python `item.get(key, default)` over the numeric entries. -/
def getNum (it : RawItem) (k : String) (dflt : ℚ) : ℚ :=
  match it.numFields.find? (fun p => p.1 == k) with
  | some p => p.2
  | none => dflt

/-- One parsed rider record of `parse_trackleaders_data`
(`app.py` lines 124-137). -/
structure Racer where
  name : String
  bib : String
  category : String
  position : ℤ
  distance : ℚ
  speed : ℚ
  location : String
  lat : ℚ
  lon : ℚ
  time_behind : String
  elapsed_time : String
  last_update : String
  deriving DecidableEq, Repr

/-- The field-extraction step of `parse_trackleaders_data`, with the
fallback key chains of `app.py` lines 125-136. -/
def mkRacer (it : RawItem) : Racer where
  name := getStr it "name" (getStr it "rider" (getStr it "racer" ""))
  bib := getStr it "bib" (getStr it "number" (getStr it "id" ""))
  category := getStr it "category" (getStr it "class" (getStr it "division" "SOLO"))
  position := pyTrunc (getNum it "position" (getNum it "rank" (getNum it "place" 999)))
  distance := getNum it "distance" (getNum it "miles" (getNum it "mi" 0))
  speed := getNum it "speed" (getNum it "mph" (getNum it "velocity" 0))
  location := getStr it "location" (getStr it "checkpoint" (getStr it "loc" ""))
  lat := getNum it "lat" (getNum it "latitude" 0)
  lon := getNum it "lon" (getNum it "lng" (getNum it "longitude" 0))
  time_behind := getStr it "behind" (getStr it "gap" (getStr it "time_back" ""))
  elapsed_time := getStr it "elapsed" (getStr it "time" "")
  last_update := getStr it "timestamp" (getStr it "last_seen" "")

/-- `parse_trackleaders_data` (`app.py` lines 117-143): keep dict items,
extract the racer record, keep only records whose lower-cased category
contains `"solo"`. -/
def parse_trackleaders_data (raw : List RawItem) : List Racer :=
  ((raw.filter (·.isDict)).map mkRacer).filter
    (fun r => containsSub "solo" (pyLower r.category))

/-- One `markers.push(` block of the `mainpoints.js` payload parsed by
`fetch_and_process_data` (`notifier.py` lines 46-55).  Each field is the
result of the corresponding regex search (`none` = no match, which the
Python code turns into a skipped block via its `except`/`all` guards). -/
structure Block where
  mystatus : Option String
  mycategory : Option String
  latLon : Option (ℚ × ℚ)
  tooltip : Option (String × String × ℚ × ℚ)
  deriving DecidableEq, Repr

/-- One rider record built by `fetch_and_process_data`
(`notifier.py` line 54). -/
structure NRacer where
  lat : ℚ
  lon : ℚ
  bib : String
  name : String
  speed : ℚ
  distance_covered_miles : ℚ
  deriving DecidableEq, Repr

/-- The per-block parsing of `fetch_and_process_data` (`notifier.py`
lines 47-55): require status and category matches, skip unless status is
`active` and category is `solo` (lower-cased), require position and
tooltip matches, then build the record (`.strip()` on the name). -/
def parseBlock (b : Block) : Option NRacer :=
  match b.mystatus, b.mycategory with
  | some st, some cat =>
    if pyLower st ≠ "active" ∨ pyLower cat ≠ "solo" then none
    else
      match b.latLon, b.tooltip with
      | some ll, some tip => some ⟨ll.1, ll.2, tip.1, pyStrip tip.2.1, tip.2.2.1, tip.2.2.2⟩
      | _, _ => none
  | _, _ => none

/-- The descending comparison used by
`sort_values(by='distance_covered_miles', ascending=False)`: `a` sorts
before `b` when `a` covers at least as many miles. -/
def distGE (a b : NRacer) : Prop :=
  b.distance_covered_miles ≤ a.distance_covered_miles

instance : DecidableRel distGE := fun a b => by
  unfold distGE; infer_instance

instance : IsTotal NRacer distGE :=
  ⟨fun a b => le_total b.distance_covered_miles a.distance_covered_miles⟩

instance : IsTrans NRacer distGE :=
  ⟨fun _ _ _ h1 h2 => le_trans h2 h1⟩

/-- `df['position'] = df.index + 1` after `reset_index(drop=True)`:
pair each row with its index plus one. -/
def rankPositions : List NRacer → ℕ → List (NRacer × ℕ)
  | [], _ => []
  | r :: rest, k => (r, k) :: rankPositions rest (k + 1)

/-- `fetch_and_process_data` (`notifier.py` lines 37-70), data pipeline
only: parse the blocks, return `none` when no racer parsed, otherwise sort
by covered distance descending and assign 1-based positions. -/
def fetch_and_process_data (blocks : List Block) : Option (List (NRacer × ℕ)) :=
  if (blocks.filterMap parseBlock).isEmpty then none
  else some (rankPositions (List.insertionSort distGE (blocks.filterMap parseBlock)) 1)

/-! ### Route construction (spec §4.1) -/

/-- One raw track sample fed to route construction. -/
structure RawSample where
  lat : ℚ
  lon : ℚ
  ele : ℚ
  deriving DecidableEq, Repr

/-- The constructed route model: the ordered point list plus the stored
`totalDistance`. -/
structure RouteModel where
  points : List RoutePoint
  totalDistance : ℚ
  deriving DecidableEq, Repr

/-- Modelled from the spec: the running construction loop — for each
subsequent raw sample, add the great-circle distance from the previous
sample to the running cumulative total and record a RoutePoint; also
return the final cumulative total.  The great-circle distance function is
a parameter (its trigonometric formula is outside the rational
embedding). -/
def buildAux (dist : RawSample → RawSample → ℚ) :
    RawSample → ℚ → List RawSample → List RoutePoint × ℚ
  | _, acc, [] => ([], acc)
  | prev, acc, s :: rest =>
    (⟨acc + dist prev s, s.lat, s.lon, s.ele⟩ ::
        (buildAux dist s (acc + dist prev s) rest).1,
      (buildAux dist s (acc + dist prev s) rest).2)

/-- Modelled from the spec: route construction — cumulative distance 0 at
the first point, then the running sum; store the point list and the final
cumulative total as `totalDistance`. -/
def buildRoute (dist : RawSample → RawSample → ℚ) (samples : List RawSample) : RouteModel :=
  match samples with
  | [] => ⟨[], 0⟩
  | s :: rest =>
    ⟨⟨0, s.lat, s.lon, s.ele⟩ :: (buildAux dist s 0 rest).1, (buildAux dist s 0 rest).2⟩

/-! ### Concrete data used by the witness theorems -/

/-- The spec's concrete 3-point scenario route. -/
def pts3 : List RoutePoint := [⟨0, 0, 0, 0⟩, ⟨10, 1, 1, 100⟩, ⟨20, 2, 2, 50⟩]

/-- A route with a degenerate (zero-length) middle segment. -/
def ptsDeg : List RoutePoint := [⟨0, 0, 0, 0⟩, ⟨10, 1, 1, 100⟩, ⟨10, 1, 1, 80⟩, ⟨20, 2, 2, 50⟩]

/-- A concrete raw TrackLeaders item. -/
def itemW : RawItem := ⟨true, [("category", "Solo 50+"), ("name", "X")], [("distance", 42)]⟩

/-- Concrete `markers.push` blocks: two parseable solo riders, one team
rider, one block without a status match. -/
def blocksW : List Block :=
  [⟨some "Active", some "SOLO", some (1, 2), some ("675", "Fritz ", 12, 100)⟩,
   ⟨some "active", some "solo", some (3, 4), some ("1", "A", 10, 250)⟩,
   ⟨some "active", some "team", some (3, 4), some ("2", "B", 10, 300)⟩,
   ⟨none, some "solo", some (3, 4), some ("3", "C", 10, 500)⟩]

/-! ## Theorems -/

theorem interpFrac_ne_div (p1 p2 : RoutePoint) (t : ℚ) :
    interpFrac p1 p2 t ≠ .error .divByZero := by
  unfold interpFrac pyDiv
  by_cases h : p2.cumulativeDistance = p1.cumulativeDistance
  · simp [h]
  · have hs : p2.cumulativeDistance - p1.cumulativeDistance ≠ 0 := sub_ne_zero.mpr h
    simp [h, hs]

theorem map_ne_div {α β : Type} (e : Except QueryError α) (f : α → β)
    (h : e ≠ .error .divByZero) : e.map f ≠ .error .divByZero := by
  cases e <;> simp_all [Except.map]

theorem scanCoord_ne_div (pts : List RoutePoint) (t : ℚ) :
    scanCoord pts t ≠ .error .divByZero := by
  induction pts with
  | nil => simp [scanCoord]
  | cons p rest ih =>
    cases rest with
    | nil => simp [scanCoord]
    | cons p2 rest2 =>
      rw [scanCoord]
      by_cases h : t ≤ p2.cumulativeDistance
      · rw [if_pos h]
        simp only [interpCoord]
        exact map_ne_div _ _ (interpFrac_ne_div p p2 t)
      · rw [if_neg h]
        exact ih

theorem gradSeg_ne_div (p1 p2 : RoutePoint) : gradSeg p1 p2 ≠ .error .divByZero := by
  unfold gradSeg
  by_cases h : (p2.cumulativeDistance - p1.cumulativeDistance) * metersPerMile = 0
  · simp [h]
  · rw [if_neg h]
    refine map_ne_div _ _ ?_
    unfold pyDiv
    rw [if_neg h]
    simp

theorem scanGrad_ne_div (pts : List RoutePoint) (d : ℚ) :
    scanGrad pts d ≠ .error .divByZero := by
  induction pts with
  | nil => simp [scanGrad]
  | cons p rest ih =>
    cases rest with
    | nil => simp [scanGrad]
    | cons p2 rest2 =>
      rw [scanGrad]
      by_cases h : d ≤ p2.cumulativeDistance
      · rw [if_pos h]
        exact gradSeg_ne_div p p2
      · rw [if_neg h]
        exact ih

/-- C4: on a route containing a degenerate segment (two consecutive
points at the same cumulative distance), neither `coordinateAt` nor
`gradientAt` raises a division-by-zero error, for any query distance:
the `p2.dist == p1.dist` guard takes the interpolation fraction as 0. -/
theorem claim_C4 (pts : List RoutePoint) (t : ℚ)
    (_hdeg : ∃ pre p1 p2 post, pts = pre ++ p1 :: p2 :: post ∧
      p1.cumulativeDistance = p2.cumulativeDistance) :
    coordinateAt pts t ≠ .error .divByZero ∧ gradientAt pts t ≠ .error .divByZero := by
  constructor
  · unfold coordinateAt
    by_cases h : pts.length < 2
    · simp [h]
    · rw [if_neg h]
      exact scanCoord_ne_div pts (max t 0)
  · unfold gradientAt
    by_cases h : pts.length < 2
    · simp [h]
    · rw [if_neg h]
      by_cases h2 : totalOf pts ≤ t
      · simp [h2]
      · rw [if_neg h2]
        exact scanGrad_ne_div pts (max t 0)

theorem claim_C4_witness :
    coordinateAt ptsDeg 10 ≠ .error .divByZero ∧
    gradientAt ptsDeg 10 ≠ .error .divByZero :=
  claim_C4 ptsDeg 10 ⟨[⟨0, 0, 0, 0⟩], ⟨10, 1, 1, 100⟩, ⟨10, 1, 1, 80⟩, [⟨20, 2, 2, 50⟩],
    rfl, rfl⟩

/-- C5: with fewer than 2 points the model is invalid and every query
(`coordinateAt`, `gradientAt`, `elevationStats`) returns the explicit
"route unavailable" result rather than throwing, for every distance. -/
theorem claim_C5 (pts : List RoutePoint) (d : ℚ) (h : pts.length < 2) :
    coordinateAt pts d = .error .routeUnavailable ∧
    gradientAt pts d = .error .routeUnavailable ∧
    elevationStats pts d = .error .routeUnavailable := by
  refine ⟨?_, ?_, ?_⟩ <;> simp [coordinateAt, gradientAt, elevationStats, h]

theorem claim_C5_witness :
    coordinateAt [] 0 = .error .routeUnavailable ∧
    gradientAt [] 0 = .error .routeUnavailable ∧
    elevationStats [] 0 = .error .routeUnavailable :=
  claim_C5 [] 0 (by decide)

/-- C8: `degrees_to_cardinal` is total — it returns `""` for `None`, and
for every degree value the index is reduced modulo 16, so the result is
one of the 16 compass strings and indexing never goes out of range. -/
theorem claim_C8 :
    degrees_to_cardinal none = some "" ∧
    ∀ q : ℚ, ∃ s, degrees_to_cardinal (some q) = some s ∧ s ∈ compassDirs := by
  constructor
  · rfl
  · intro q
    have h0 : 0 ≤ Int.emod (pyTrunc ((q + 11.25) / 22.5)) 16 :=
      Int.emod_nonneg _ (by norm_num)
    have h16 : Int.emod (pyTrunc ((q + 11.25) / 22.5)) 16 < 16 :=
      Int.emod_lt_of_pos _ (by norm_num)
    have hlt : (Int.emod (pyTrunc ((q + 11.25) / 22.5)) 16).toNat < compassDirs.length := by
      simp only [compassDirs, List.length_cons, List.length_nil]
      omega
    refine ⟨compassDirs.get ⟨_, hlt⟩, ?_, List.get_mem _ _ _⟩
    simp only [degrees_to_cardinal, pyIndex]
    rw [if_pos h0]
    exact List.get?_eq_get hlt

theorem chainLe_of_chainStep {pts : List RoutePoint} (h : List.Chain' stepRel pts) :
    List.Chain' leDist pts :=
  List.Chain'.imp (fun _ _ hab => hab.1) h

theorem mem_le_totalOf : ∀ (pts : List RoutePoint), List.Chain' leDist pts →
    ∀ p ∈ pts, p.cumulativeDistance ≤ totalOf pts := by
  intro pts
  induction pts with
  | nil => intro _ p hp; simp at hp
  | cons q rest ih =>
    intro hch p hp
    cases rest with
    | nil =>
      rw [List.mem_singleton] at hp
      subst hp
      simp [totalOf]
    | cons r rs =>
      have hqr : q.cumulativeDistance ≤ r.cumulativeDistance := (List.chain'_cons.mp hch).1
      have hch2 := (List.chain'_cons.mp hch).2
      have htot : totalOf (q :: r :: rs) = totalOf (r :: rs) := by
        unfold totalOf
        rw [List.getLast?_cons_cons]
      rw [htot]
      rcases List.mem_cons.mp hp with hpq | hpr
      · subst hpq
        exact hqr.trans (ih hch2 r (List.mem_cons_self r rs))
      · exact ih hch2 p hpr

theorem head_le_of_mem : ∀ (rest : List RoutePoint) (q p : RoutePoint),
    List.Chain' leDist (q :: rest) → p ∈ q :: rest →
    q.cumulativeDistance ≤ p.cumulativeDistance := by
  intro rest
  induction rest with
  | nil =>
    intro q p _ hp
    rw [List.mem_singleton] at hp
    subst hp
    exact le_refl _
  | cons r rs ih =>
    intro q p hch hp
    rcases List.mem_cons.mp hp with hpq | hpr
    · subst hpq
      exact le_refl _
    · have hqr : q.cumulativeDistance ≤ r.cumulativeDistance := (List.chain'_cons.mp hch).1
      exact hqr.trans (ih r p (List.chain'_cons.mp hch).2 hpr)

theorem scanCoord_beyond : ∀ (pts : List RoutePoint) (t : ℚ),
    (∀ p ∈ pts, p.cumulativeDistance < t) →
    ∀ pL, pts.getLast? = some pL → scanCoord pts t = .ok (pL.lat, pL.lon) := by
  intro pts
  induction pts with
  | nil => intro t _ pL hL; simp at hL
  | cons q rest ih =>
    intro t hall pL hL
    cases rest with
    | nil =>
      rw [List.getLast?_singleton] at hL
      injection hL with hL
      subst hL
      simp [scanCoord]
    | cons r rs =>
      rw [scanCoord]
      have hr : r.cumulativeDistance < t := hall r (by simp)
      rw [if_neg (not_le.mpr hr)]
      rw [List.getLast?_cons_cons] at hL
      exact ih t (fun p hp => hall p (List.mem_cons_of_mem q hp)) pL hL

theorem scanCoord_head (p1 p2 : RoutePoint) (rest : List RoutePoint)
    (h12 : p1.cumulativeDistance ≤ p2.cumulativeDistance) :
    scanCoord (p1 :: p2 :: rest) p1.cumulativeDistance = .ok (p1.lat, p1.lon) := by
  rw [scanCoord, if_pos h12]
  simp only [interpCoord, interpFrac]
  by_cases h : p2.cumulativeDistance = p1.cumulativeDistance
  · rw [if_pos h]
    simp [Except.map]
  · rw [if_neg h]
    unfold pyDiv
    rw [if_neg (sub_ne_zero.mpr h)]
    simp [Except.map]

/-- C1: on every valid route, query distances above `totalDistance` clamp
to the final point's coordinate (no extrapolation), `coordinateAt 0` is
the first point's coordinate, and negative distances clamp to the first
point. -/
theorem claim_C1 (pts : List RoutePoint) (hv : ValidRoute pts) :
    ∃ pF pL, pts.head? = some pF ∧ pts.getLast? = some pL ∧
      (∀ d, totalOf pts < d → coordinateAt pts d = .ok (pL.lat, pL.lon)) ∧
      coordinateAt pts 0 = .ok (pF.lat, pF.lon) ∧
      (∀ d, d < 0 → coordinateAt pts d = .ok (pF.lat, pF.lon)) := by
  obtain ⟨hlen, hhead, hch⟩ := hv
  cases pts with
  | nil => simp at hlen
  | cons p1 tail =>
    cases tail with
    | nil =>
      simp only [List.length_singleton] at hlen
      omega
    | cons p2 rest =>
      have h0 : p1.cumulativeDistance = 0 := hhead p1 rfl
      have hchLe := chainLe_of_chainStep hch
      have h2 : ¬ (p1 :: p2 :: rest).length < 2 := by
        simp only [List.length_cons]
        omega
      obtain ⟨pL, hL⟩ : ∃ pL, (p1 :: p2 :: rest).getLast? = some pL := by
        cases hGL : (p1 :: p2 :: rest).getLast? with
        | none =>
          have := List.getLast?_isSome.mpr (List.cons_ne_nil p1 (p2 :: rest))
          rw [hGL] at this
          simp at this
        | some pL => exact ⟨pL, rfl⟩
      refine ⟨p1, pL, rfl, hL, ?_, ?_, ?_⟩
      · intro d hd
        unfold coordinateAt
        rw [if_neg h2]
        have h0t : 0 ≤ totalOf (p1 :: p2 :: rest) := by
          have hm := mem_le_totalOf _ hchLe p1 (by simp)
          rw [h0] at hm
          exact hm
        rw [max_eq_left (le_of_lt (lt_of_le_of_lt h0t hd))]
        exact scanCoord_beyond _ d
          (fun p hp => lt_of_le_of_lt (mem_le_totalOf _ hchLe p hp) hd) pL hL
      · unfold coordinateAt
        rw [if_neg h2]
        have hmax : max (0 : ℚ) 0 = p1.cumulativeDistance := by
          rw [h0, max_self]
        rw [hmax]
        exact scanCoord_head p1 p2 rest (List.chain'_cons.mp hchLe).1
      · intro d hd
        unfold coordinateAt
        rw [if_neg h2]
        have hmax : max d 0 = p1.cumulativeDistance := by
          rw [h0]
          exact max_eq_right (le_of_lt hd)
        rw [hmax]
        exact scanCoord_head p1 p2 rest (List.chain'_cons.mp hchLe).1

theorem stepRel_intro (a b : RoutePoint) (h1 : a.cumulativeDistance ≤ b.cumulativeDistance)
    (h2 : b.cumulativeDistance ≤ a.cumulativeDistance → a.lat = b.lat ∧ a.lon = b.lon) :
    stepRel a b :=
  And.intro h1 h2

theorem validRoute_pts3 : ValidRoute pts3 := by
  refine ⟨by norm_num [pts3], ?_, ?_⟩
  · intro p hp
    have hh : pts3.head? = some ⟨0, 0, 0, 0⟩ := rfl
    rw [hh] at hp
    injection hp with h
    rw [← h]
  · refine List.chain'_cons.mpr ⟨?_, List.chain'_cons.mpr ⟨?_, List.chain'_singleton _⟩⟩
    · exact stepRel_intro _ _ (by norm_num) (fun h => absurd h (by norm_num))
    · exact stepRel_intro _ _ (by norm_num) (fun h => absurd h (by norm_num))

theorem claim_C1_witness :
    coordinateAt pts3 25 = .ok (2, 2) ∧ coordinateAt pts3 0 = .ok (0, 0) ∧
    coordinateAt pts3 (-5) = .ok (0, 0) := by
  obtain ⟨pF, pL, hF, hL, hBeyond, hZero, hNeg⟩ := claim_C1 pts3 validRoute_pts3
  have hpF : pF = ⟨0, 0, 0, 0⟩ := by
    have hh : pts3.head? = some ⟨0, 0, 0, 0⟩ := rfl
    rw [hh] at hF
    injection hF with h
    exact h.symm
  have hpL : pL = ⟨20, 2, 2, 50⟩ := by
    have hh : pts3.getLast? = some ⟨20, 2, 2, 50⟩ := rfl
    rw [hh] at hL
    injection hL with h
    exact h.symm
  have htot : totalOf pts3 = 20 := rfl
  refine ⟨?_, ?_, ?_⟩
  · have := hBeyond 25 (by rw [htot]; norm_num)
    rw [hpL] at this
    exact this
  · rw [hZero, hpF]
  · have := hNeg (-5) (by norm_num)
    rw [hpF] at this
    exact this

theorem stepChain_sandwich : ∀ (rest : List RoutePoint) (q p : RoutePoint),
    List.Chain' stepRel (q :: rest) → p ∈ q :: rest →
    p.cumulativeDistance ≤ q.cumulativeDistance →
    p.lat = q.lat ∧ p.lon = q.lon ∧ q.cumulativeDistance ≤ p.cumulativeDistance := by
  intro rest
  induction rest with
  | nil =>
    intro q p _ hp _
    rw [List.mem_singleton] at hp
    subst hp
    exact ⟨rfl, rfl, le_refl _⟩
  | cons r rs ih =>
    intro q p hch hp hle
    rcases List.mem_cons.mp hp with hpq | hpr
    · subst hpq
      exact ⟨rfl, rfl, le_refl _⟩
    · have hqr : stepRel q r := (List.chain'_cons.mp hch).1
      have hch2 := (List.chain'_cons.mp hch).2
      have hpr2 : p.cumulativeDistance ≤ r.cumulativeDistance := le_trans hle hqr.1
      obtain ⟨hlat, hlon, hge⟩ := ih r p hch2 hpr hpr2
      have hrq : r.cumulativeDistance ≤ q.cumulativeDistance := le_trans hge hle
      obtain ⟨hl2, hn2⟩ := hqr.2 hrq
      exact ⟨hlat.trans hl2.symm, hlon.trans hn2.symm, le_trans hqr.1 hge⟩

theorem scanCoord_exact : ∀ (pts : List RoutePoint) (p : RoutePoint),
    List.Chain' stepRel pts → 2 ≤ pts.length → p ∈ pts →
    scanCoord pts p.cumulativeDistance = .ok (p.lat, p.lon) := by
  intro pts
  induction pts with
  | nil => intro p _ hlen _; simp at hlen
  | cons p1 tail ih =>
    intro p hch hlen hp
    cases tail with
    | nil =>
      simp only [List.length_singleton] at hlen
      omega
    | cons p2 rest =>
      have h12 : stepRel p1 p2 := (List.chain'_cons.mp hch).1
      have hch2 := (List.chain'_cons.mp hch).2
      by_cases hle : p.cumulativeDistance ≤ p2.cumulativeDistance
      · rw [scanCoord, if_pos hle]
        rcases List.mem_cons.mp hp with hpq | hpr
        · subst hpq
          have := scanCoord_head p p2 rest h12.1
          rw [scanCoord, if_pos hle] at this
          exact this
        · obtain ⟨hlat, hlon, hge⟩ := stepChain_sandwich rest p2 p hch2 hpr hle
          have heq : p.cumulativeDistance = p2.cumulativeDistance := le_antisymm hle hge
          simp only [interpCoord, interpFrac]
          by_cases hdeg : p2.cumulativeDistance = p1.cumulativeDistance
          · rw [if_pos hdeg]
            obtain ⟨hl1, hn1⟩ := h12.2 (le_of_eq hdeg)
            simp only [Except.map]
            rw [hlat, hlon, ← hl1, ← hn1]
            simp
          · rw [if_neg hdeg]
            unfold pyDiv
            rw [if_neg (sub_ne_zero.mpr hdeg)]
            simp only [Except.map, Except.ok.injEq]
            rw [heq, div_self (sub_ne_zero.mpr hdeg), hlat, hlon, Prod.mk.injEq]
            constructor <;> ring
      · rw [scanCoord, if_neg hle]
        have hne1 : p ≠ p1 := by
          intro hcon
          subst hcon
          exact hle h12.1
        have hpr : p ∈ p2 :: rest := by
          rcases List.mem_cons.mp hp with hpq | hpr
          · exact absurd hpq hne1
          · exact hpr
        have hlen2 : 2 ≤ (p2 :: rest).length := by
          cases rest with
          | nil =>
            rw [List.mem_singleton] at hpr
            subst hpr
            exact absurd (le_refl _) hle
          | cons r rs =>
            simp only [List.length_cons]
            omega
        exact ih p hch2 hlen2 hpr

/-- C2: on every valid route, interpolation is exact at the sample
points: for every stored point `p`, `coordinateAt p.cumulativeDistance`
returns exactly `(p.lat, p.lon)`. -/
theorem claim_C2 (pts : List RoutePoint) (hv : ValidRoute pts) :
    ∀ p ∈ pts, coordinateAt pts p.cumulativeDistance = .ok (p.lat, p.lon) := by
  obtain ⟨hlen, hhead, hch⟩ := hv
  intro p hp
  unfold coordinateAt
  rw [if_neg (not_lt.mpr hlen)]
  have h0 : 0 ≤ p.cumulativeDistance := by
    cases pts with
    | nil => simp at hp
    | cons q rest =>
      have hq0 : q.cumulativeDistance = 0 := hhead q rfl
      have := head_le_of_mem rest q p (chainLe_of_chainStep hch) hp
      rw [hq0] at this
      exact this
  rw [max_eq_left h0]
  exact scanCoord_exact pts p hch hlen hp

theorem claim_C2_witness :
    coordinateAt pts3 10 = .ok (1, 1) :=
  claim_C2 pts3 validRoute_pts3 ⟨10, 1, 1, 100⟩ (by simp [pts3])

theorem climbedUpTo_totalOf : ∀ (pts : List RoutePoint), List.Chain' leDist pts →
    climbedUpTo pts (totalOf pts) = totalGain pts := by
  intro pts
  induction pts with
  | nil => intro _; rfl
  | cons q rest ih =>
    intro hch
    cases rest with
    | nil => rfl
    | cons r rs =>
      have hch2 := (List.chain'_cons.mp hch).2
      have htot : totalOf (q :: r :: rs) = totalOf (r :: rs) := by
        unfold totalOf
        rw [List.getLast?_cons_cons]
      have hrle : r.cumulativeDistance ≤ totalOf (q :: r :: rs) := by
        rw [htot]
        exact mem_le_totalOf _ hch2 r (List.mem_cons_self r rs)
      simp only [climbedUpTo, totalGain]
      rw [if_pos hrle, htot, ih hch2]

/-- C3: on every valid route and for every query distance `d`,
`climbed + remaining` at `d` equals `climbed` at `totalDistance`
(elevation-gain conservation), and `remaining` at `totalDistance` is 0. -/
theorem claim_C3 (pts : List RoutePoint) (hv : ValidRoute pts) :
    ∀ d, ∃ s sEnd : ElevStats, elevationStats pts d = .ok s ∧
      elevationStats pts (totalOf pts) = .ok sEnd ∧
      s.climbed + s.remaining = sEnd.climbed ∧ sEnd.remaining = 0 := by
  obtain ⟨hlen, _, hch⟩ := hv
  intro d
  have hnl : ¬ pts.length < 2 := not_lt.mpr hlen
  have hct := climbedUpTo_totalOf pts (chainLe_of_chainStep hch)
  refine ⟨⟨climbedUpTo pts d, totalGain pts - climbedUpTo pts d⟩,
    ⟨climbedUpTo pts (totalOf pts), totalGain pts - climbedUpTo pts (totalOf pts)⟩,
    ?_, ?_, ?_, ?_⟩
  · unfold elevationStats
    rw [if_neg hnl]
  · unfold elevationStats
    rw [if_neg hnl]
  · show climbedUpTo pts d + (totalGain pts - climbedUpTo pts d) = climbedUpTo pts (totalOf pts)
    rw [hct]
    ring
  · show totalGain pts - climbedUpTo pts (totalOf pts) = 0
    rw [hct]
    exact sub_self _

theorem claim_C3_witness :
    ∃ s sEnd : ElevStats, elevationStats pts3 10 = .ok s ∧
      elevationStats pts3 (totalOf pts3) = .ok sEnd ∧
      s.climbed + s.remaining = sEnd.climbed ∧ sEnd.remaining = 0 :=
  claim_C3 pts3 validRoute_pts3 10

theorem scanGrad_bracket : ∀ (pts : List RoutePoint) (d : ℚ),
    List.Chain' leDist pts → 2 ≤ pts.length →
    (∀ p, pts.head? = some p → p.cumulativeDistance ≤ d) →
    d < totalOf pts →
    ∃ (i : ℕ) (h1 : i < pts.length) (h2 : i + 1 < pts.length),
      scanGrad pts d = gradSeg (pts.get ⟨i, h1⟩) (pts.get ⟨i + 1, h2⟩) ∧
      (pts.get ⟨i, h1⟩).cumulativeDistance ≤ d ∧
      d ≤ (pts.get ⟨i + 1, h2⟩).cumulativeDistance := by
  intro pts
  induction pts with
  | nil => intro d _ hlen _ _; simp at hlen
  | cons p1 tail ih =>
    intro d hch hlen hhead hdtot
    cases tail with
    | nil =>
      simp only [List.length_singleton] at hlen
      omega
    | cons p2 rest =>
      by_cases hle : d ≤ p2.cumulativeDistance
      · refine ⟨0, by simp only [List.length_cons]; omega, by simp only [List.length_cons]; omega,
          ?_, hhead p1 rfl, hle⟩
        rw [scanGrad, if_pos hle]
        rfl
      · cases rest with
        | nil =>
          exfalso
          apply hle
          have htot2 : totalOf [p1, p2] = p2.cumulativeDistance := rfl
          rw [htot2] at hdtot
          exact le_of_lt hdtot
        | cons r rs =>
          have hch2 := (List.chain'_cons.mp hch).2
          have htot : totalOf (p1 :: p2 :: r :: rs) = totalOf (p2 :: r :: rs) := by
            unfold totalOf
            rw [List.getLast?_cons_cons]
          obtain ⟨i, h1, h2, heq, hlo, hhi⟩ := ih d hch2
            (by simp only [List.length_cons]; omega)
            (fun p hp => by
              injection hp with hp
              rw [← hp]
              exact le_of_lt (not_le.mp hle))
            (by rw [← htot]; exact hdtot)
          refine ⟨i + 1, Nat.succ_lt_succ h1, Nat.succ_lt_succ h2, ?_, hlo, hhi⟩
          rw [scanGrad, if_neg hle, heq]
          rfl

/-- C6: `gradientAt` reports `0%` at or beyond `totalDistance` and on a
bracketing segment with zero horizontal distance; otherwise the bracketing
segment's gradient is `(elevationChange / horizontalDistanceMeters) * 100`
with the sign preserved: strictly rising elevation gives a positive value
and strictly falling elevation a negative one. -/
theorem claim_C6 :
    (∀ (pts : List RoutePoint) (d : ℚ), 2 ≤ pts.length → totalOf pts ≤ d →
      gradientAt pts d = .ok 0) ∧
    (∀ p1 p2 : RoutePoint,
      (p2.cumulativeDistance - p1.cumulativeDistance) * metersPerMile = 0 →
      gradSeg p1 p2 = .ok 0) ∧
    (∀ p1 p2 : RoutePoint,
      (p2.cumulativeDistance - p1.cumulativeDistance) * metersPerMile ≠ 0 →
      gradSeg p1 p2 = .ok ((p2.elevation - p1.elevation) /
        ((p2.cumulativeDistance - p1.cumulativeDistance) * metersPerMile) * 100)) ∧
    (∀ p1 p2 : RoutePoint, p1.cumulativeDistance < p2.cumulativeDistance →
      p1.elevation < p2.elevation → ∃ g, gradSeg p1 p2 = .ok g ∧ 0 < g) ∧
    (∀ p1 p2 : RoutePoint, p1.cumulativeDistance < p2.cumulativeDistance →
      p2.elevation < p1.elevation → ∃ g, gradSeg p1 p2 = .ok g ∧ g < 0) ∧
    (∀ (pts : List RoutePoint) (d : ℚ), ValidRoute pts → 0 ≤ d → d < totalOf pts →
      ∃ (i : ℕ) (h1 : i < pts.length) (h2 : i + 1 < pts.length),
        gradientAt pts d = gradSeg (pts.get ⟨i, h1⟩) (pts.get ⟨i + 1, h2⟩) ∧
        (pts.get ⟨i, h1⟩).cumulativeDistance ≤ d ∧
        d ≤ (pts.get ⟨i + 1, h2⟩).cumulativeDistance) := by
  have hmp : (0 : ℚ) < metersPerMile := by norm_num [metersPerMile]
  have hformula : ∀ p1 p2 : RoutePoint,
      (p2.cumulativeDistance - p1.cumulativeDistance) * metersPerMile ≠ 0 →
      gradSeg p1 p2 = .ok ((p2.elevation - p1.elevation) /
        ((p2.cumulativeDistance - p1.cumulativeDistance) * metersPerMile) * 100) := by
    intro p1 p2 h
    unfold gradSeg pyDiv
    rw [if_neg h, if_neg h]
    simp [Except.map]
  refine ⟨?_, ?_, hformula, ?_, ?_, ?_⟩
  · intro pts d hlen htot
    unfold gradientAt
    rw [if_neg (not_lt.mpr hlen), if_pos htot]
  · intro p1 p2 h
    unfold gradSeg
    rw [if_pos h]
  · intro p1 p2 hd he
    have hpos : 0 < (p2.cumulativeDistance - p1.cumulativeDistance) * metersPerMile :=
      mul_pos (sub_pos.mpr hd) hmp
    refine ⟨_, hformula p1 p2 (ne_of_gt hpos), ?_⟩
    exact mul_pos (div_pos (sub_pos.mpr he) hpos) (by norm_num)
  · intro p1 p2 hd he
    have hpos : 0 < (p2.cumulativeDistance - p1.cumulativeDistance) * metersPerMile :=
      mul_pos (sub_pos.mpr hd) hmp
    refine ⟨_, hformula p1 p2 (ne_of_gt hpos), ?_⟩
    have hneg : p2.elevation - p1.elevation < 0 := sub_neg.mpr he
    have : (p2.elevation - p1.elevation) /
        ((p2.cumulativeDistance - p1.cumulativeDistance) * metersPerMile) < 0 :=
      div_neg_of_neg_of_pos hneg hpos
    exact mul_neg_of_neg_of_pos this (by norm_num)
  · intro pts d hv h0d hdtot
    obtain ⟨hlen, hhead, hch⟩ := hv
    have hbr := scanGrad_bracket pts d (chainLe_of_chainStep hch) hlen
      (fun p hp => by rw [hhead p hp]; exact h0d) hdtot
    obtain ⟨i, h1, h2, heq, hlo, hhi⟩ := hbr
    refine ⟨i, h1, h2, ?_, hlo, hhi⟩
    unfold gradientAt
    rw [if_neg (not_lt.mpr hlen), if_neg (not_le.mpr hdtot), max_eq_left h0d]
    exact heq

theorem claim_C6_witness :
    gradientAt pts3 25 = .ok 0 ∧
    (∃ g, gradSeg ⟨0, 0, 0, 0⟩ ⟨10, 1, 1, 100⟩ = .ok g ∧ 0 < g) ∧
    (∃ g, gradSeg ⟨10, 1, 1, 100⟩ ⟨20, 2, 2, 50⟩ = .ok g ∧ g < 0) ∧
    (∃ (i : ℕ) (h1 : i < pts3.length) (h2 : i + 1 < pts3.length),
      gradientAt pts3 5 = gradSeg (pts3.get ⟨i, h1⟩) (pts3.get ⟨i + 1, h2⟩) ∧
      (pts3.get ⟨i, h1⟩).cumulativeDistance ≤ 5 ∧
      5 ≤ (pts3.get ⟨i + 1, h2⟩).cumulativeDistance) := by
  have htot : totalOf pts3 = 20 := rfl
  refine ⟨?_, ?_, ?_, ?_⟩
  · exact claim_C6.1 pts3 25 (by norm_num [pts3]) (by rw [htot]; norm_num)
  · exact claim_C6.2.2.2.1 _ _ (by norm_num) (by norm_num)
  · exact claim_C6.2.2.2.2.1 _ _ (by norm_num) (by norm_num)
  · exact claim_C6.2.2.2.2.2 pts3 5 validRoute_pts3 (by norm_num) (by rw [htot]; norm_num)

theorem buildAux_spec (dist : RawSample → RawSample → ℚ) (hdist : ∀ a b, 0 ≤ dist a b) :
    ∀ (rest : List RawSample) (prev : RawSample) (acc : ℚ),
      (∀ p, (buildAux dist prev acc rest).1.head? = some p → acc ≤ p.cumulativeDistance) ∧
      List.Chain' leDist (buildAux dist prev acc rest).1 ∧
      ((buildAux dist prev acc rest).1 = [] → (buildAux dist prev acc rest).2 = acc) ∧
      (∀ p, (buildAux dist prev acc rest).1.getLast? = some p →
        (buildAux dist prev acc rest).2 = p.cumulativeDistance) := by
  intro rest
  induction rest with
  | nil =>
    intro prev acc
    refine ⟨?_, ?_, ?_, ?_⟩
    · intro p hp
      simp [buildAux] at hp
    · simp [buildAux]
    · intro _
      rfl
    · intro p hp
      simp [buildAux] at hp
  | cons s rs ih =>
    intro prev acc
    obtain ⟨ihHead, ihChain, ihNil, ihLast⟩ := ih s (acc + dist prev s)
    refine ⟨?_, ?_, ?_, ?_⟩
    · intro p hp
      injection hp with h
      rw [← h]
      exact le_add_of_nonneg_right (hdist prev s)
    · exact List.chain'_cons'.mpr ⟨fun b hb => ihHead b hb, ihChain⟩
    · intro h
      exact (List.cons_ne_nil _ _ h).elim
    · intro p hp
      cases hX : (buildAux dist s (acc + dist prev s) rs).1 with
      | nil =>
        show (buildAux dist s (acc + dist prev s) rs).2 = p.cumulativeDistance
        have hp2 : (⟨acc + dist prev s, s.lat, s.lon, s.ele⟩ :: (buildAux dist s
            (acc + dist prev s) rs).1).getLast? = some p := hp
        rw [hX, List.getLast?_singleton] at hp2
        injection hp2 with h
        rw [ihNil hX, ← h]
      | cons y ys =>
        show (buildAux dist s (acc + dist prev s) rs).2 = p.cumulativeDistance
        have hp2 : (⟨acc + dist prev s, s.lat, s.lon, s.ele⟩ :: (buildAux dist s
            (acc + dist prev s) rs).1).getLast? = some p := hp
        rw [hX, List.getLast?_cons_cons] at hp2
        exact ihLast p (by rw [hX]; exact hp2)

/-- C7: a route built by the construction algorithm (cumulative distance
0 at the first point, then running sums of the non-negative great-circle
increments) has non-decreasing `cumulativeDistance`, and the stored
`totalDistance` equals the last point's cumulative distance. -/
theorem claim_C7 (dist : RawSample → RawSample → ℚ) (hdist : ∀ a b, 0 ≤ dist a b)
    (samples : List RawSample) :
    List.Chain' leDist (buildRoute dist samples).points ∧
    (∀ p, (buildRoute dist samples).points.head? = some p → p.cumulativeDistance = 0) ∧
    (∀ p, (buildRoute dist samples).points.getLast? = some p →
      (buildRoute dist samples).totalDistance = p.cumulativeDistance) := by
  cases samples with
  | nil =>
    refine ⟨List.chain'_nil, ?_, ?_⟩ <;> intro p hp <;> simp [buildRoute] at hp
  | cons s rest =>
    obtain ⟨ihHead, ihChain, ihNil, ihLast⟩ := buildAux_spec dist hdist rest s 0
    refine ⟨?_, ?_, ?_⟩
    · exact List.chain'_cons'.mpr ⟨fun b hb => ihHead b hb, ihChain⟩
    · intro p hp
      injection hp with h
      rw [← h]
    · intro p hp
      show (buildAux dist s 0 rest).2 = p.cumulativeDistance
      have hp2 : ((⟨0, s.lat, s.lon, s.ele⟩ : RoutePoint) ::
          (buildAux dist s 0 rest).1).getLast? = some p := hp
      cases hX : (buildAux dist s 0 rest).1 with
      | nil =>
        rw [hX, List.getLast?_singleton] at hp2
        injection hp2 with h
        rw [ihNil hX, ← h]
      | cons y ys =>
        rw [hX, List.getLast?_cons_cons] at hp2
        exact ihLast p (by rw [hX]; exact hp2)

theorem claim_C7_witness :
    List.Chain' leDist (buildRoute (fun _ _ => 1) [⟨0, 0, 0⟩, ⟨1, 1, 10⟩]).points ∧
    (∀ p, (buildRoute (fun _ _ => 1) [⟨0, 0, 0⟩, ⟨1, 1, 10⟩]).points.head? = some p →
      p.cumulativeDistance = 0) ∧
    (∀ p, (buildRoute (fun _ _ => 1) [⟨0, 0, 0⟩, ⟨1, 1, 10⟩]).points.getLast? = some p →
      (buildRoute (fun _ _ => 1) [⟨0, 0, 0⟩, ⟨1, 1, 10⟩]).totalDistance =
        p.cumulativeDistance) :=
  claim_C7 (fun _ _ => 1) (fun _ _ => zero_le_one) [⟨0, 0, 0⟩, ⟨1, 1, 10⟩]

theorem parseBlock_some (b : Block) (r : NRacer) (h : parseBlock b = some r) :
    ∃ st cat, b.mystatus = some st ∧ b.mycategory = some cat ∧
      pyLower st = "active" ∧ pyLower cat = "solo" := by
  cases hst : b.mystatus with
  | none => simp [parseBlock, hst] at h
  | some st =>
    cases hcat : b.mycategory with
    | none => simp [parseBlock, hst, hcat] at h
    | some cat =>
      have hg : ¬ (pyLower st ≠ "active" ∨ pyLower cat ≠ "solo") := by
        intro hcon
        simp [parseBlock, hst, hcat, hcon] at h
      push_neg at hg
      exact ⟨st, cat, rfl, rfl, hg.1, hg.2⟩

theorem rankPositions_mem : ∀ (l : List NRacer) (k : ℕ) (rp : NRacer × ℕ),
    rp ∈ rankPositions l k → rp.1 ∈ l := by
  intro l
  induction l with
  | nil => intro k rp h; simp [rankPositions] at h
  | cons r rest ih =>
    intro k rp h
    simp only [rankPositions] at h
    rcases List.mem_cons.mp h with h1 | h2
    · subst h1
      exact List.mem_cons_self r rest
    · exact List.mem_cons_of_mem _ (ih (k + 1) rp h2)

theorem rankPositions_length : ∀ (l : List NRacer) (k : ℕ),
    (rankPositions l k).length = l.length := by
  intro l
  induction l with
  | nil => intro k; rfl
  | cons r rest ih =>
    intro k
    simp only [rankPositions, List.length_cons, ih (k + 1)]

theorem rankPositions_map_snd : ∀ (l : List NRacer) (k : ℕ),
    (rankPositions l k).map Prod.snd = List.range' k l.length := by
  intro l
  induction l with
  | nil => intro k; rfl
  | cons r rest ih =>
    intro k
    simp only [rankPositions, List.map_cons, List.length_cons, List.range'_succ]
    rw [ih (k + 1)]

theorem rankPositions_pairwise {R : NRacer → NRacer → Prop} : ∀ (l : List NRacer) (k : ℕ),
    List.Pairwise R l →
    List.Pairwise (fun a b : NRacer × ℕ => R a.1 b.1) (rankPositions l k) := by
  intro l
  induction l with
  | nil => intro k _; exact List.Pairwise.nil
  | cons r rest ih =>
    intro k h
    refine List.pairwise_cons.mpr ⟨?_, ih (k + 1) (List.pairwise_cons.mp h).2⟩
    intro b hb
    exact (List.pairwise_cons.mp h).1 b.1 (rankPositions_mem rest (k + 1) b hb)

/-- C9: every record kept by `parse_trackleaders_data` has `"solo"` in
its lower-cased category, and every row of the DataFrame built by
`fetch_and_process_data` was parsed from a block whose status is
`active` and whose category is `solo` (case-insensitively). -/
theorem claim_C9 :
    (∀ (raw : List RawItem) (r : Racer), r ∈ parse_trackleaders_data raw →
      containsSub "solo" (pyLower r.category) = true) ∧
    (∀ (blocks : List Block) (df : List (NRacer × ℕ)) (rp : NRacer × ℕ),
      fetch_and_process_data blocks = some df → rp ∈ df →
      ∃ b ∈ blocks, parseBlock b = some rp.1 ∧ ∃ st cat, b.mystatus = some st ∧
        b.mycategory = some cat ∧ pyLower st = "active" ∧ pyLower cat = "solo") := by
  constructor
  · intro raw r hr
    unfold parse_trackleaders_data at hr
    exact (List.mem_filter.mp hr).2
  · intro blocks df rp hdf hrp
    unfold fetch_and_process_data at hdf
    by_cases hemp : (blocks.filterMap parseBlock).isEmpty
    · rw [if_pos hemp] at hdf
      exact Option.noConfusion hdf
    · rw [if_neg hemp] at hdf
      injection hdf with hdf
      rw [← hdf] at hrp
      have h1 : rp.1 ∈ List.insertionSort distGE (blocks.filterMap parseBlock) :=
        rankPositions_mem _ _ rp hrp
      have h2 : rp.1 ∈ blocks.filterMap parseBlock :=
        (List.perm_insertionSort distGE _).mem_iff.mp h1
      obtain ⟨b, hb, hpb⟩ := List.mem_filterMap.mp h2
      obtain ⟨st, cat, h3, h4, h5, h6⟩ := parseBlock_some b rp.1 hpb
      exact ⟨b, hb, hpb, st, cat, h3, h4, h5, h6⟩

/-- C10: in the DataFrame built by `fetch_and_process_data`, positions
are exactly `1, 2, ..., n` in row order, covered distance is
non-increasing along the rows, and a rider with strictly maximal covered
distance heads the list with position 1. -/
theorem claim_C10 (blocks : List Block) (df : List (NRacer × ℕ))
    (hdf : fetch_and_process_data blocks = some df) :
    df.map Prod.snd = List.range' 1 df.length ∧
    List.Pairwise
      (fun a b : NRacer × ℕ => b.1.distance_covered_miles ≤ a.1.distance_covered_miles) df ∧
    (∀ r : NRacer, r ∈ blocks.filterMap parseBlock →
      (∀ q ∈ blocks.filterMap parseBlock, q ≠ r →
        q.distance_covered_miles < r.distance_covered_miles) →
      df.head? = some (r, 1)) := by
  unfold fetch_and_process_data at hdf
  by_cases hemp : (blocks.filterMap parseBlock).isEmpty
  · rw [if_pos hemp] at hdf
    exact Option.noConfusion hdf
  · rw [if_neg hemp] at hdf
    injection hdf with hdf
    subst hdf
    have hsorted : List.Pairwise distGE
        (List.insertionSort distGE (blocks.filterMap parseBlock)) :=
      List.sorted_insertionSort distGE (blocks.filterMap parseBlock)
    refine ⟨?_, ?_, ?_⟩
    · rw [rankPositions_map_snd, rankPositions_length]
    · exact rankPositions_pairwise _ 1 hsorted
    · intro r hr hmax
      cases hS : List.insertionSort distGE (blocks.filterMap parseBlock) with
      | nil =>
        exfalso
        have hrS : r ∈ List.insertionSort distGE (blocks.filterMap parseBlock) :=
          (List.perm_insertionSort distGE _).mem_iff.mpr hr
        rw [hS] at hrS
        simp at hrS
      | cons h t =>
        have hhr : h = r := by
          by_cases hhr : h = r
          · exact hhr
          exfalso
          have hhmem : h ∈ blocks.filterMap parseBlock := by
            have : h ∈ List.insertionSort distGE (blocks.filterMap parseBlock) := by
              rw [hS]
              exact List.mem_cons_self h t
            exact (List.perm_insertionSort distGE _).mem_iff.mp this
          have hlt : h.distance_covered_miles < r.distance_covered_miles :=
            hmax h hhmem hhr
          have hrS : r ∈ h :: t := by
            have : r ∈ List.insertionSort distGE (blocks.filterMap parseBlock) :=
              (List.perm_insertionSort distGE _).mem_iff.mpr hr
            rw [hS] at this
            exact this
          rcases List.mem_cons.mp hrS with hre | hrt
          · exact hhr hre.symm
          · have : r.distance_covered_miles ≤ h.distance_covered_miles := by
              rw [hS] at hsorted
              exact (List.pairwise_cons.mp hsorted).1 r hrt
            exact absurd hlt (not_lt.mpr this)
        subst hhr
        rfl

theorem claim_C9_witness :
    containsSub "solo" (pyLower (mkRacer itemW).category) = true ∧
    (∃ b ∈ blocksW, parseBlock b = some (⟨3, 4, "1", "A", 10, 250⟩ : NRacer) ∧
      ∃ st cat, b.mystatus = some st ∧ b.mycategory = some cat ∧
        pyLower st = "active" ∧ pyLower cat = "solo") := by
  constructor
  · exact claim_C9.1 [itemW] (mkRacer itemW) (by decide)
  · exact claim_C9.2 blocksW
      [(⟨3, 4, "1", "A", 10, 250⟩, 1), (⟨1, 2, "675", "Fritz", 12, 100⟩, 2)]
      (⟨3, 4, "1", "A", 10, 250⟩, 1) (by decide) (by decide)

theorem claim_C10_witness :
    [((⟨3, 4, "1", "A", 10, 250⟩ : NRacer), 1),
      (⟨1, 2, "675", "Fritz", 12, 100⟩, 2)].map Prod.snd = List.range' 1 2 ∧
    [((⟨3, 4, "1", "A", 10, 250⟩ : NRacer), 1),
      (⟨1, 2, "675", "Fritz", 12, 100⟩, 2)].head? = some (⟨3, 4, "1", "A", 10, 250⟩, 1) := by
  have h := claim_C10 blocksW
    [(⟨3, 4, "1", "A", 10, 250⟩, 1), (⟨1, 2, "675", "Fritz", 12, 100⟩, 2)] (by decide)
  exact ⟨h.1, h.2.2 ⟨3, 4, "1", "A", 10, 250⟩ (by decide) (by decide)⟩

end Raam
